import Mathlib

/-!
Verification development for the onion-routing crypto substrate:
the cryptographic engine (`src/crypto.ts`) and the node registry
(the unnamed registry source file).

Modelling conventions:
* Byte buffers (`ArrayBuffer`, `Uint8Array`, Node `Buffer`) are `List Nat`
  with every entry `< 256` where it matters.
* Node `Buffer.toString("base64")` / `Buffer.from(s, "base64")` are modelled
  concretely below (`encodeB64` / `decodeB64`).  Node base64 decoding is
  lenient: characters outside the base64 alphabet (including the `=` padding)
  are skipped, complete 4-character groups decode to 3 bytes, and a trailing
  group of 2 or 3 characters decodes to 1 or 2 bytes.
* The WebCrypto subtle primitives (AES-GCM, RSA-OAEP, SPKI/PKCS8 codecs) and
  the UTF-8 codec (`TextEncoder`/`TextDecoder`) are external to the repo; they
  are abstracted as a `SubtleCrypto` structure, and their documented guarantees
  are the `SubtleCryptoOK` predicate.  Randomness (IVs, generated key bytes,
  OAEP seeds) is passed explicitly.
-/

/-- The base64 alphabet, in value order (value 0 is `A`, value 63 is `/`). -/
def b64Chars : List Char :=
  "ABCDEFGHIJKLMNOPQRSTUVWXYZabcdefghijklmnopqrstuvwxyz0123456789+/".data

/-- Character of a 6-bit value. -/
def b64Char (n : Nat) : Char := b64Chars.getD n 'A'

/-- Value of a base64 alphabet character; `none` for padding, whitespace and
any other character (Node ignores those on decode). -/
def b64Val (c : Char) : Option Nat :=
  if 65 ≤ c.toNat ∧ c.toNat ≤ 90 then some (c.toNat - 65)
  else if 97 ≤ c.toNat ∧ c.toNat ≤ 122 then some (c.toNat - 97 + 26)
  else if 48 ≤ c.toNat ∧ c.toNat ≤ 57 then some (c.toNat - 48 + 52)
  else if c = '+' then some 62
  else if c = '/' then some 63
  else none

/-- Standard base64 encoding of a byte list, with `=` padding
(Node `Buffer.prototype.toString("base64")`). -/
def encodeB64Chars : List Nat → List Char
  | [] => []
  | [b1] => [b64Char (b1 / 4), b64Char (b1 % 4 * 16), '=', '=']
  | [b1, b2] =>
    [b64Char (b1 / 4), b64Char (b1 % 4 * 16 + b2 / 16), b64Char (b2 % 16 * 4), '=']
  | b1 :: b2 :: b3 :: rest =>
    b64Char (b1 / 4) :: b64Char (b1 % 4 * 16 + b2 / 16) ::
      b64Char (b2 % 16 * 4 + b3 / 64) :: b64Char (b3 % 64) :: encodeB64Chars rest

def encodeB64 (bs : List Nat) : String := ⟨encodeB64Chars bs⟩

/-- Reassemble bytes from a stream of 6-bit values: full groups of four give
three bytes, a trailing group of two or three gives one or two bytes, a lone
trailing value is dropped (Node semantics). -/
def sextetsToBytes : List Nat → List Nat
  | s1 :: s2 :: s3 :: s4 :: rest =>
    (s1 * 4 + s2 / 16) :: (s2 % 16 * 16 + s3 / 4) :: (s3 % 4 * 64 + s4) ::
      sextetsToBytes rest
  | [s1, s2] => [s1 * 4 + s2 / 16]
  | [s1, s2, s3] => [s1 * 4 + s2 / 16, s2 % 16 * 16 + s3 / 4]
  | [] => []
  | [_] => []

/-- Lenient base64 decoding (Node `Buffer.from(s, "base64")`): non-alphabet
characters are skipped, then the value stream is packed into bytes. -/
def decodeB64 (s : String) : List Nat :=
  sextetsToBytes (s.data.filterMap b64Val)

theorem data_mk (l : List Char) : (String.mk l).data = l := rfl

theorem b64Val_b64Char : ∀ n, n < 64 → b64Val (b64Char n) = some n := by decide

theorem b64Val_pad : b64Val '=' = none := by decide

theorem b64Val_lt {c : Char} {v : Nat} (h : b64Val c = some v) : v < 64 := by
  unfold b64Val at h
  split at h
  · have h2 := h
    simp only [Option.some.injEq] at h2
    omega
  · split at h
    · simp only [Option.some.injEq] at h
      omega
    · split at h
      · simp only [Option.some.injEq] at h
        omega
      · split at h
        · simp only [Option.some.injEq] at h
          omega
        · split at h
          · simp only [Option.some.injEq] at h
            omega
          · exact absurd h (by simp)

theorem sextetsToBytes_lt {l : List Nat} (hl : ∀ x ∈ l, x < 64) :
    ∀ b ∈ sextetsToBytes l, b < 256 := by
  induction l using sextetsToBytes.induct with
  | case1 s1 s2 s3 s4 rest ih =>
    simp only [sextetsToBytes, List.mem_cons] at *
    intro b hb
    have h1 := hl s1 (by tauto)
    have h2 := hl s2 (by tauto)
    have h3 := hl s3 (by tauto)
    have h4 := hl s4 (by tauto)
    rcases hb with h | h | h | h
    · omega
    · omega
    · omega
    · exact ih (fun x hx => hl x (by tauto)) b h
  | case2 s1 s2 =>
    have h1 := hl s1 (by simp)
    have h2 := hl s2 (by simp)
    simp only [sextetsToBytes, List.mem_singleton]
    omega
  | case3 s1 s2 s3 =>
    have h1 := hl s1 (by simp)
    have h2 := hl s2 (by simp)
    have h3 := hl s3 (by simp)
    simp only [sextetsToBytes, List.mem_cons, List.not_mem_nil, or_false]
    intro b hb
    rcases hb with h | h
    · omega
    · omega
  | case4 =>
    intro b hb
    simp [sextetsToBytes] at hb
  | case5 =>
    intro b hb
    simp [sextetsToBytes] at hb

/-- Every byte produced by the lenient base64 decoder is a byte. -/
theorem decodeB64_lt (s : String) : ∀ b ∈ decodeB64 s, b < 256 := by
  apply sextetsToBytes_lt
  intro x hx
  rcases List.mem_filterMap.1 hx with ⟨c, _, hc⟩
  exact b64Val_lt hc

/-- Decoding inverts encoding on genuine byte lists. -/
theorem decodeB64_encodeB64 (bs : List Nat) (h : ∀ b ∈ bs, b < 256) :
    decodeB64 (encodeB64 bs) = bs := by
  unfold decodeB64 encodeB64
  rw [data_mk]
  induction bs using encodeB64Chars.induct with
  | case1 => rfl
  | case2 b1 =>
    have hb1 := h b1 (by simp)
    have e1 := b64Val_b64Char (b1 / 4) (by omega)
    have e2 := b64Val_b64Char (b1 % 4 * 16) (by omega)
    simp only [encodeB64Chars, List.filterMap_cons, e1, e2, b64Val_pad,
      List.filterMap_nil, sextetsToBytes]
    have : b1 / 4 * 4 + b1 % 4 * 16 / 16 = b1 := by omega
    rw [this]
  | case3 b1 b2 =>
    have hb1 := h b1 (by simp)
    have hb2 := h b2 (by simp)
    have e1 := b64Val_b64Char (b1 / 4) (by omega)
    have e2 := b64Val_b64Char (b1 % 4 * 16 + b2 / 16) (by omega)
    have e3 := b64Val_b64Char (b2 % 16 * 4) (by omega)
    simp only [encodeB64Chars, List.filterMap_cons, e1, e2, e3, b64Val_pad,
      List.filterMap_nil, sextetsToBytes]
    have g1 : b1 / 4 * 4 + (b1 % 4 * 16 + b2 / 16) / 16 = b1 := by omega
    have g2 : (b1 % 4 * 16 + b2 / 16) % 16 * 16 + b2 % 16 * 4 / 4 = b2 := by omega
    rw [g1, g2]
  | case4 b1 b2 b3 rest ih =>
    have hb1 := h b1 (by simp)
    have hb2 := h b2 (by simp)
    have hb3 := h b3 (by simp)
    have e1 := b64Val_b64Char (b1 / 4) (by omega)
    have e2 := b64Val_b64Char (b1 % 4 * 16 + b2 / 16) (by omega)
    have e3 := b64Val_b64Char (b2 % 16 * 4 + b3 / 64) (by omega)
    have e4 := b64Val_b64Char (b3 % 64) (by omega)
    simp only [encodeB64Chars, List.filterMap_cons, e1, e2, e3, e4, sextetsToBytes]
    have g1 : b1 / 4 * 4 + (b1 % 4 * 16 + b2 / 16) / 16 = b1 := by omega
    have g2 : (b1 % 4 * 16 + b2 / 16) % 16 * 16 + (b2 % 16 * 4 + b3 / 64) / 4 = b2 := by
      omega
    have g3 : (b2 % 16 * 4 + b3 / 64) % 4 * 64 + b3 % 64 = b3 := by omega
    rw [g1, g2, g3, ih (fun b hb => h b (by simp [hb]))]

/-! ## The WebCrypto interface

`src/crypto.ts` calls into `webcrypto.subtle` (AES-GCM, RSA-OAEP, key
serialization) and into `TextEncoder`/`TextDecoder`.  Those primitives live
outside the repository; we abstract them as a structure and state their
documented behaviour as `SubtleCryptoOK`.  RSA key pairs are identified by a
`Nat` handle `kp`; the SPKI/PKCS8 encoders serialize that handle.  Randomness
(the AES-GCM IV, the OAEP internal seed) is an explicit argument. -/

structure SubtleCrypto where
  utf8Enc : String → List Nat
  utf8Dec : List Nat → String
  aesEnc : List Nat → List Nat → List Nat → List Nat
  aesDec : List Nat → List Nat → List Nat → Option (List Nat)
  spkiEnc : Nat → List Nat
  spkiDec : List Nat → Option Nat
  pkcs8Enc : Nat → List Nat
  pkcs8Dec : List Nat → Option Nat
  rsaEnc : Nat → Nat → List Nat → List Nat
  rsaDec : Nat → List Nat → Option (List Nat)

/-- Documented guarantees of the external primitives: UTF-8 decode inverts
encode; AES-GCM decrypt inverts encrypt under the same key and IV, appends a
16-byte tag, and rejects any input shorter than the tag; SPKI/PKCS8 parsing
inverts serialization; RSA-OAEP decrypt inverts encrypt under the matching
key pair; all produced buffers contain bytes. -/
structure SubtleCryptoOK (P : SubtleCrypto) : Prop where
  utf8_rt : ∀ s, P.utf8Dec (P.utf8Enc s) = s
  utf8_lt : ∀ s, ∀ b ∈ P.utf8Enc s, b < 256
  aes_rt : ∀ k iv m, P.aesDec k iv (P.aesEnc k iv m) = some m
  aes_len : ∀ k iv m, (P.aesEnc k iv m).length = m.length + 16
  aes_lt : ∀ k iv m, (∀ x ∈ m, x < 256) → ∀ b ∈ P.aesEnc k iv m, b < 256
  aes_short : ∀ k iv c, c.length < 16 → P.aesDec k iv c = none
  spki_rt : ∀ n, P.spkiDec (P.spkiEnc n) = some n
  spki_lt : ∀ n, ∀ b ∈ P.spkiEnc n, b < 256
  pkcs8_rt : ∀ n, P.pkcs8Dec (P.pkcs8Enc n) = some n
  pkcs8_lt : ∀ n, ∀ b ∈ P.pkcs8Enc n, b < 256
  rsa_rt : ∀ kp seed m, P.rsaDec kp (P.rsaEnc kp seed m) = some m
  rsa_lt : ∀ kp seed m, (∀ x ∈ m, x < 256) → ∀ b ∈ P.rsaEnc kp seed m, b < 256

/-- WebCrypto key usages relevant to this code base. -/
inductive KeyUsage
  | encrypt
  | decrypt
  deriving DecidableEq

/-- The key material held by a `CryptoKey`: raw AES bytes, or one half of an
RSA key pair identified by its handle. -/
inductive KeyMaterial
  | aes (bytes : List Nat)
  | rsaPub (kp : Nat)
  | rsaPrv (kp : Nat)
  deriving DecidableEq

/-- Model of a WebCrypto `CryptoKey`: key material plus the usages the key was
created with (WebCrypto enforces usages on every operation). -/
structure CryptoKey where
  material : KeyMaterial
  usages : List KeyUsage
  deriving DecidableEq

/-- Errors surfaced by the WebCrypto layer: `invalidAccess` for a key whose
type or usages do not fit the operation, `operationError` for a failed
decrypt, `dataError` for malformed key data on import. -/
inductive WebCryptoErr
  | invalidAccess
  | operationError
  | dataError
  deriving DecidableEq

/-- Model of `webcrypto.subtle.encrypt` with an AES-GCM algorithm: requires the
`encrypt` usage and AES key material. -/
def subtleEncryptAesGcm (P : SubtleCrypto) (key : CryptoKey) (iv data : List Nat) :
    Except WebCryptoErr (List Nat) :=
  if KeyUsage.encrypt ∈ key.usages then
    match key.material with
    | .aes kb => .ok (P.aesEnc kb iv data)
    | _ => .error .invalidAccess
  else .error .invalidAccess

/-- Model of `webcrypto.subtle.decrypt` with an AES-GCM algorithm: requires the
`decrypt` usage and AES key material; a failed authenticated decrypt
surfaces as `operationError`. -/
def subtleDecryptAesGcm (P : SubtleCrypto) (key : CryptoKey) (iv data : List Nat) :
    Except WebCryptoErr (List Nat) :=
  if KeyUsage.decrypt ∈ key.usages then
    match key.material with
    | .aes kb =>
      match P.aesDec kb iv data with
      | some pt => .ok pt
      | none => .error .operationError
    | _ => .error .invalidAccess
  else .error .invalidAccess

/-- Model of `webcrypto.subtle.encrypt` with RSA-OAEP: requires the `encrypt` usage and
a public RSA key.  `seed` models the internal OAEP randomness. -/
def subtleEncryptRsaOaep (P : SubtleCrypto) (key : CryptoKey) (seed : Nat)
    (data : List Nat) : Except WebCryptoErr (List Nat) :=
  if KeyUsage.encrypt ∈ key.usages then
    match key.material with
    | .rsaPub kp => .ok (P.rsaEnc kp seed data)
    | _ => .error .invalidAccess
  else .error .invalidAccess

/-- Model of `webcrypto.subtle.decrypt` with RSA-OAEP: requires the `decrypt` usage and
a private RSA key. -/
def subtleDecryptRsaOaep (P : SubtleCrypto) (key : CryptoKey) (data : List Nat) :
    Except WebCryptoErr (List Nat) :=
  if KeyUsage.decrypt ∈ key.usages then
    match key.material with
    | .rsaPrv kp =>
      match P.rsaDec kp data with
      | some pt => .ok pt
      | none => .error .operationError
    | _ => .error .invalidAccess
  else .error .invalidAccess

/-! ## `src/crypto.ts` -/

/-- Model of `arrayBufferToBase64` (crypto.ts): `Buffer.from(buffer).toString("base64")`. -/
def arrayBufferToBase64 (buffer : List Nat) : String := encodeB64 buffer

/-- Model of `base64ToArrayBuffer` (crypto.ts): `Buffer.from(base64, "base64")`,
which decodes leniently and never throws. -/
def base64ToArrayBuffer (b64 : String) : List Nat := decodeB64 b64

/-- Model of `generateRsaKeyPair` (crypto.ts): `subtle.generateKey` for RSA-OAEP with
usages `["encrypt", "decrypt"]`.  WebCrypto assigns the public key the
`encrypt` usage and the private key the `decrypt` usage.  The fresh key pair
is modelled by its handle `kp`. -/
def generateRsaKeyPair (kp : Nat) : CryptoKey × CryptoKey :=
  (⟨.rsaPub kp, [.encrypt]⟩, ⟨.rsaPrv kp, [.decrypt]⟩)

/-- Model of `exportPubKey` (crypto.ts): `subtle.exportKey("spki", key)` then base64.
SPKI export of a non-public key throws `invalidAccess`. -/
def exportPubKey (P : SubtleCrypto) (key : CryptoKey) : Except WebCryptoErr String :=
  match key.material with
  | .rsaPub kp => .ok (arrayBufferToBase64 (P.spkiEnc kp))
  | _ => .error .invalidAccess

/-- Model of `exportPrvKey` (crypto.ts): `if (!key) return null;` then
`subtle.exportKey("pkcs8", key)` and base64. -/
def exportPrvKey (P : SubtleCrypto) (key : Option CryptoKey) :
    Except WebCryptoErr (Option String) :=
  match key with
  | none => .ok none
  | some k =>
    match k.material with
    | .rsaPrv kp => .ok (some (arrayBufferToBase64 (P.pkcs8Enc kp)))
    | _ => .error .invalidAccess

/-- Model of `importPubKey` (crypto.ts): base64-decode, `subtle.importKey("spki", ...)`
with usages `["encrypt"]`; unparsable data throws `dataError`. -/
def importPubKey (P : SubtleCrypto) (strKey : String) : Except WebCryptoErr CryptoKey :=
  match P.spkiDec (base64ToArrayBuffer strKey) with
  | some kp => .ok ⟨.rsaPub kp, [.encrypt]⟩
  | none => .error .dataError

/-- Model of `importPrvKey` (crypto.ts): base64-decode, `subtle.importKey("pkcs8", ...)`
with usages `["decrypt"]`. -/
def importPrvKey (P : SubtleCrypto) (strKey : String) : Except WebCryptoErr CryptoKey :=
  match P.pkcs8Dec (base64ToArrayBuffer strKey) with
  | some kp => .ok ⟨.rsaPrv kp, [.decrypt]⟩
  | none => .error .dataError

/-- Model of `rsaEncrypt` (crypto.ts): import the public key, base64-decode the data,
RSA-OAEP encrypt, base64-encode the result. -/
def rsaEncrypt (P : SubtleCrypto) (b64Data strPublicKey : String) (seed : Nat) :
    Except WebCryptoErr String :=
  match importPubKey P strPublicKey with
  | .error e => .error e
  | .ok publicKey =>
    let dataBuffer := base64ToArrayBuffer b64Data
    match subtleEncryptRsaOaep P publicKey seed dataBuffer with
    | .error e => .error e
    | .ok encryptedBuffer => .ok (arrayBufferToBase64 encryptedBuffer)

/-- Model of `rsaDecrypt` (crypto.ts): base64-decode the ciphertext, RSA-OAEP decrypt
with the given private key object, decode the plaintext as UTF-8. -/
def rsaDecrypt (P : SubtleCrypto) (data : String) (privateKey : CryptoKey) :
    Except WebCryptoErr String :=
  match subtleDecryptRsaOaep P privateKey (base64ToArrayBuffer data) with
  | .error e => .error e
  | .ok decryptedBuffer => .ok (P.utf8Dec decryptedBuffer)

/-- Model of `createRandomSymmetricKey` (crypto.ts): `subtle.generateKey` for AES-GCM
256 with usages `["encrypt", "decrypt"]`; `rnd` is the 32 random key bytes. -/
def createRandomSymmetricKey (rnd : List Nat) : CryptoKey :=
  ⟨.aes rnd, [.encrypt, .decrypt]⟩

/-- Model of `exportSymKey` (crypto.ts): `subtle.exportKey("raw", key)` then base64. -/
def exportSymKey (key : CryptoKey) : Except WebCryptoErr String :=
  match key.material with
  | .aes kb => .ok (arrayBufferToBase64 kb)
  | _ => .error .invalidAccess

/-- Model of `importSymKey` (crypto.ts): base64-decode, `subtle.importKey("raw", ...)`
for AES-GCM with usages `["encrypt", "decrypt"]`.  WebCrypto raw AES import
accepts key data of exactly 16, 24 or 32 bytes and otherwise throws
`dataError`. -/
def importSymKey (strKey : String) : Except WebCryptoErr CryptoKey :=
  let arrayBufferKey := base64ToArrayBuffer strKey
  if arrayBufferKey.length = 16 ∨ arrayBufferKey.length = 24 ∨
      arrayBufferKey.length = 32 then
    .ok ⟨.aes arrayBufferKey, [.encrypt, .decrypt]⟩
  else .error .dataError

/-- Model of `stringToUint8Array` (crypto.ts): `new TextEncoder().encode(str)`. -/
def stringToUint8Array (P : SubtleCrypto) (str : String) : List Nat := P.utf8Enc str

/-- Model of `uint8ArrayToString` (crypto.ts): `new TextDecoder().decode(bytes)`. -/
def uint8ArrayToString (P : SubtleCrypto) (bytes : List Nat) : String := P.utf8Dec bytes

/-- Model of `symEncrypt` (crypto.ts): UTF-8 encode the data, draw a fresh 12-byte IV
(`iv` models that draw), AES-GCM encrypt, prepend the IV, base64-encode. -/
def symEncrypt (P : SubtleCrypto) (key : CryptoKey) (data : String) (iv : List Nat) :
    Except WebCryptoErr String :=
  let encodedData := stringToUint8Array P data
  match subtleEncryptAesGcm P key iv encodedData with
  | .error e => .error e
  | .ok encryptedData => .ok (arrayBufferToBase64 (iv ++ encryptedData))

/-- Model of `symDecrypt` (crypto.ts), instrumented: import the key from its base64
form, base64-decode the blob, slice the first 12 bytes as IV and the rest as
ciphertext, AES-GCM decrypt, UTF-8 decode.  The second component records every
`subtle.decrypt` invocation (IV and ciphertext arguments), so that statements
can talk about whether a decrypt was attempted. -/
def symDecryptRun (P : SubtleCrypto) (strKey encryptedData : String) :
    Except WebCryptoErr String × List (List Nat × List Nat) :=
  match importSymKey strKey with
  | .error e => (.error e, [])
  | .ok key =>
    let encodedData := base64ToArrayBuffer encryptedData
    let iv := encodedData.take 12
    let ct := encodedData.drop 12
    (match subtleDecryptAesGcm P key iv ct with
     | .error e => .error e
     | .ok decryptedData => .ok (uint8ArrayToString P decryptedData),
     [(iv, ct)])

/-- Model of `symDecrypt` (crypto.ts): the result of `symDecryptRun`. -/
def symDecrypt (P : SubtleCrypto) (strKey encryptedData : String) :
    Except WebCryptoErr String :=
  (symDecryptRun P strKey encryptedData).1

/-! ## The registry source file

The unnamed registry source declares two module-level in-memory stores: the
`nodes` array (written by the `/registerNode` handler) and the `nodeKeys`
record, which starts empty and is never written anywhere in the file.
The handlers `/status`, `/getPrivateKey` and `/getNodeRegistry` only read. -/

/-- Model of `Node` (registry source): a registered node. -/
structure RegistryNode where
  nodeId : Int
  pubKey : String
  deriving DecidableEq

/-- An entry of the `nodeKeys` store. -/
structure NodeKeyEntry where
  privateKey : String
  publicKey : String
  deriving DecidableEq

/-- The mutable module-level state of the registry source file. -/
structure RegistryState where
  nodes : List RegistryNode
  nodeKeys : List (Int × NodeKeyEntry)
  deriving DecidableEq

/-- Both stores start empty. -/
def initRegistryState : RegistryState := ⟨[], []⟩

/-- Response of the `/registerNode` handler: HTTP 201 or HTTP 400. -/
inductive RegisterResp
  | registered
  | conflict
  deriving DecidableEq

/-- The `/registerNode` handler: reject when `nodes.find` locates the id,
otherwise push the new node. -/
def registerNode (st : RegistryState) (nodeId : Int) (pubKey : String) :
    RegisterResp × RegistryState :=
  if (st.nodes.find? (fun node => node.nodeId == nodeId)).isSome then
    (.conflict, st)
  else
    (.registered, ⟨st.nodes ++ [⟨nodeId, pubKey⟩], st.nodeKeys⟩)

/-- The `/getNodeRegistry` handler: returns the `nodes` array. -/
def getNodeRegistry (st : RegistryState) : List RegistryNode := st.nodes

/-- Response of the `/getPrivateKey` handler: HTTP 404 or the stored private
key re-encoded in base64. -/
inductive PrivateKeyResp
  | notFound
  | found (result : String)
  deriving DecidableEq

/-- The `/getPrivateKey` handler: look the id up in `nodeKeys`; on a hit,
return `Buffer.from(nodeKey.privateKey).toString("base64")`. -/
def getPrivateKey (P : SubtleCrypto) (st : RegistryState) (nodeId : Int) :
    PrivateKeyResp :=
  match st.nodeKeys.find? (fun e => e.1 == nodeId) with
  | none => .notFound
  | some e => .found (arrayBufferToBase64 (P.utf8Enc e.2.privateKey))

/-- A request against the registry server.  Only `/registerNode` writes the
module state; the three other routes are pure reads. -/
inductive RegistryRequest
  | status
  | register (nodeId : Int) (pubKey : String)
  | privateKeyLookup (nodeId : Int)
  | listNodes

/-- State transition of one request. -/
def registryStep (st : RegistryState) : RegistryRequest → RegistryState
  | .register nodeId pubKey => (registerNode st nodeId pubKey).2
  | _ => st

/-- State after a sequence of requests. -/
def runRegistry : List RegistryRequest → RegistryState → RegistryState
  | [], st => st
  | r :: rs, st => runRegistry rs (registryStep st r)

/-- State after a sequence of registration calls `(nodeId, pubKey)`. -/
def runRegisterCalls (reqs : List (Int × String)) (st : RegistryState) :
    RegistryState :=
  runRegistry (reqs.map (fun r => .register r.1 r.2)) st

/-- The pubKey of the first registration call for a given id, if any. -/
def firstRegistration (reqs : List (Int × String)) (nodeId : Int) : Option String :=
  (reqs.find? (fun r => r.1 == nodeId)).map (fun r => r.2)

/-! ## Concrete witness instance

A toy `SubtleCrypto` satisfying every documented guarantee, used to evaluate
the parameterized theorems on concrete inputs.  The text codec keeps 7-bit
characters as single bytes (so it agrees with UTF-8 on ASCII) and escapes
everything else behind byte 127; the toy AES appends a 16-byte tag; the toy
serializers are injective by construction. -/

def toyEncChar (c : Char) : List Nat :=
  if c.toNat < 127 then [c.toNat]
  else [127, c.toNat % 256, c.toNat / 256 % 256, c.toNat / 65536]

def toyEncChars : List Char → List Nat
  | [] => []
  | c :: cs => toyEncChar c ++ toyEncChars cs

def toyUtf8Enc (s : String) : List Nat := toyEncChars s.data

def toyDecChars : List Nat → List Char
  | [] => []
  | b :: rest =>
    if b = 127 then
      match rest with
      | b1 :: b2 :: b3 :: rest2 =>
        Char.ofNat (b1 + 256 * b2 + 65536 * b3) :: toyDecChars rest2
      | _ => []
    else Char.ofNat b :: toyDecChars rest

def toyUtf8Dec (l : List Nat) : String := ⟨toyDecChars l⟩

def toySubtle : SubtleCrypto where
  utf8Enc := toyUtf8Enc
  utf8Dec := toyUtf8Dec
  aesEnc := fun _ _ m => m ++ List.replicate 16 0
  aesDec := fun _ _ c => if c.length < 16 then none else some (c.take (c.length - 16))
  spkiEnc := fun n => List.replicate n 0
  spkiDec := fun l => some l.length
  pkcs8Enc := fun n => List.replicate n 0
  pkcs8Dec := fun l => some l.length
  rsaEnc := fun _ _ m => m
  rsaDec := fun _ c => some c

theorem char_toNat_lt (c : Char) : c.toNat < 1114112 := by
  rcases c.valid with h | ⟨_, h⟩
  · exact Nat.lt_trans h (by decide)
  · exact h

theorem toyDecChars_cons (b : Nat) (rest : List Nat) :
    toyDecChars (b :: rest) =
      if b = 127 then
        match rest with
        | b1 :: b2 :: b3 :: rest2 =>
          Char.ofNat (b1 + 256 * b2 + 65536 * b3) :: toyDecChars rest2
        | _ => []
      else Char.ofNat b :: toyDecChars rest := by
  rw [toyDecChars.eq_def]

theorem toyDecChars_toyEncChars (cs : List Char) :
    toyDecChars (toyEncChars cs) = cs := by
  induction cs with
  | nil => rfl
  | cons c cs ih =>
    by_cases h : c.toNat < 127
    · have hne : ¬ c.toNat = 127 := by omega
      simp only [toyEncChars, toyEncChar, if_pos h, List.cons_append, List.nil_append,
        toyDecChars_cons, if_neg hne, Char.ofNat_toNat, ih]
    · have hlt := char_toNat_lt c
      have hv : c.toNat % 256 + 256 * (c.toNat / 256 % 256) + 65536 * (c.toNat / 65536)
          = c.toNat := by omega
      simp only [toyEncChars, toyEncChar, if_neg h, List.cons_append, List.nil_append]
      rw [toyDecChars_cons, if_pos rfl]
      show Char.ofNat (c.toNat % 256 + 256 * (c.toNat / 256 % 256)
          + 65536 * (c.toNat / 65536)) :: toyDecChars (toyEncChars cs) = c :: cs
      rw [hv, Char.ofNat_toNat, ih]

theorem toyEncChars_lt (cs : List Char) : ∀ b ∈ toyEncChars cs, b < 256 := by
  induction cs with
  | nil => simp [toyEncChars]
  | cons c cs ih =>
    intro b hb
    simp only [toyEncChars, List.mem_append] at hb
    rcases hb with hb | hb
    · have hlt := char_toNat_lt c
      unfold toyEncChar at hb
      split at hb <;> simp only [List.mem_cons, List.not_mem_nil, or_false,
        List.mem_singleton] at hb <;> omega
    · exact ih b hb

theorem toySubtleOK : SubtleCryptoOK toySubtle := by
  constructor
  · intro s
    obtain ⟨d⟩ := s
    show toyUtf8Dec (toyUtf8Enc (String.mk d)) = String.mk d
    unfold toyUtf8Dec toyUtf8Enc
    rw [data_mk, toyDecChars_toyEncChars]
  · intro s b hb
    exact toyEncChars_lt s.data b hb
  · intro k iv m
    simp only [toySubtle]
    rw [if_neg (by simp)]
    simp only [List.length_append, List.length_replicate, Nat.add_sub_cancel]
    rw [List.take_left' rfl]
  · intro k iv m
    simp [toySubtle]
  · intro k iv m hm b hb
    simp only [toySubtle, List.mem_append, List.mem_replicate] at hb
    rcases hb with hb | hb
    · exact hm b hb
    · omega
  · intro k iv c hc
    exact if_pos hc
  · intro n
    simp [toySubtle]
  · intro n b hb
    simp only [toySubtle, List.mem_replicate] at hb
    omega
  · intro n
    simp [toySubtle]
  · intro n b hb
    simp only [toySubtle, List.mem_replicate] at hb
    omega
  · intro kp seed m
    rfl
  · intro kp seed m hm b hb
    exact hm b hb

/-! ## Helper lemmas about the symmetric path -/

theorem symEncrypt_eq (P : SubtleCrypto) (rnd iv : List Nat) (s : String) :
    symEncrypt P (createRandomSymmetricKey rnd) s iv
      = .ok (arrayBufferToBase64 (iv ++ P.aesEnc rnd iv (P.utf8Enc s))) := by
  simp [symEncrypt, subtleEncryptAesGcm, createRandomSymmetricKey, stringToUint8Array]

theorem blob_bytes_lt (P : SubtleCrypto) (hP : SubtleCryptoOK P)
    (rnd iv : List Nat) (s : String) (hiv : ∀ b ∈ iv, b < 256) :
    ∀ b ∈ iv ++ P.aesEnc rnd iv (P.utf8Enc s), b < 256 := by
  intro b hb
  rcases List.mem_append.1 hb with h | h
  · exact hiv b h
  · exact hP.aes_lt rnd iv (P.utf8Enc s) (hP.utf8_lt s) b h

theorem importSymKey_export (rnd : List Nat) (hlen : rnd.length = 32)
    (hrnd : ∀ b ∈ rnd, b < 256) :
    importSymKey (arrayBufferToBase64 rnd) = .ok ⟨.aes rnd, [.encrypt, .decrypt]⟩ := by
  unfold importSymKey base64ToArrayBuffer arrayBufferToBase64
  rw [decodeB64_encodeB64 rnd hrnd]
  rw [if_pos (by omega)]

/-- C1: for every generated symmetric key and plaintext string, decrypting
with the exported key round-trips: `symDecrypt(exportSymKey(k), symEncrypt(k, s))`
returns `s`.  `rnd` models the 32 generated key bytes and `iv` the fresh
12-byte IV drawn by `symEncrypt`. -/
theorem symmetric_key_roundtrip (P : SubtleCrypto) (hP : SubtleCryptoOK P)
    (rnd iv : List Nat) (s : String)
    (hlen : rnd.length = 32) (hrnd : ∀ b ∈ rnd, b < 256)
    (hivlen : iv.length = 12) (hiv : ∀ b ∈ iv, b < 256) :
    ∀ ek blob, exportSymKey (createRandomSymmetricKey rnd) = .ok ek →
      symEncrypt P (createRandomSymmetricKey rnd) s iv = .ok blob →
      symDecrypt P ek blob = .ok s := by
  intro ek blob hek henc
  simp only [exportSymKey, createRandomSymmetricKey, Except.ok.injEq] at hek
  rw [symEncrypt_eq] at henc
  simp only [Except.ok.injEq] at henc
  subst hek
  subst henc
  simp only [symDecrypt, symDecryptRun, importSymKey_export rnd hlen hrnd]
  unfold base64ToArrayBuffer arrayBufferToBase64
  rw [decodeB64_encodeB64 _ (blob_bytes_lt P hP rnd iv s hiv)]
  rw [List.take_left' hivlen, List.drop_left' hivlen]
  simp [subtleDecryptAesGcm, hP.aes_rt, uint8ArrayToString, hP.utf8_rt]

/-- C1 witness: concrete round trip with the toy primitives, an all-zero
32-byte key, an all-zero IV and the plaintext `"abc"`. -/
theorem symmetric_key_roundtrip_witness :
    symDecrypt toySubtle (arrayBufferToBase64 (List.replicate 32 0))
      (arrayBufferToBase64 (List.replicate 12 0 ++
        toySubtle.aesEnc (List.replicate 32 0) (List.replicate 12 0)
          (toySubtle.utf8Enc "abc"))) = .ok "abc" :=
  symmetric_key_roundtrip toySubtle toySubtleOK (List.replicate 32 0)
    (List.replicate 12 0) "abc" (by simp) (by simp) (by simp) (by simp)
    (arrayBufferToBase64 (List.replicate 32 0)) _ rfl (symEncrypt_eq _ _ _ _)

/-- C2: the blob produced by `symEncrypt` is the base64 encoding of the
12-byte IV drawn for that encryption followed immediately by the AES-GCM
output, whose length is the plaintext length plus the 16-byte tag; in
particular the first 12 decoded bytes of the blob are exactly that IV. -/
theorem symEncrypt_blob_layout (P : SubtleCrypto) (hP : SubtleCryptoOK P)
    (rnd iv : List Nat) (s : String)
    (hivlen : iv.length = 12) (hiv : ∀ b ∈ iv, b < 256) :
    symEncrypt P (createRandomSymmetricKey rnd) s iv
        = .ok (arrayBufferToBase64 (iv ++ P.aesEnc rnd iv (P.utf8Enc s)))
      ∧ (P.aesEnc rnd iv (P.utf8Enc s)).length = (P.utf8Enc s).length + 16
      ∧ (decodeB64 (arrayBufferToBase64 (iv ++ P.aesEnc rnd iv (P.utf8Enc s)))).take 12
          = iv := by
  refine ⟨symEncrypt_eq P rnd iv s, hP.aes_len rnd iv (P.utf8Enc s), ?_⟩
  unfold arrayBufferToBase64
  rw [decodeB64_encodeB64 _ (blob_bytes_lt P hP rnd iv s hiv)]
  exact List.take_left' hivlen

/-- C2 witness: the blob layout at the toy primitives, a zero key, a zero IV
and the plaintext `"abc"`. -/
theorem symEncrypt_blob_layout_witness :
    symEncrypt toySubtle (createRandomSymmetricKey (List.replicate 32 0)) "abc"
        (List.replicate 12 0)
        = .ok (arrayBufferToBase64 (List.replicate 12 0 ++
            toySubtle.aesEnc (List.replicate 32 0) (List.replicate 12 0)
              (toySubtle.utf8Enc "abc")))
      ∧ (toySubtle.aesEnc (List.replicate 32 0) (List.replicate 12 0)
          (toySubtle.utf8Enc "abc")).length = (toySubtle.utf8Enc "abc").length + 16
      ∧ (decodeB64 (arrayBufferToBase64 (List.replicate 12 0 ++
          toySubtle.aesEnc (List.replicate 32 0) (List.replicate 12 0)
            (toySubtle.utf8Enc "abc")))).take 12 = List.replicate 12 0 :=
  symEncrypt_blob_layout toySubtle toySubtleOK (List.replicate 32 0)
    (List.replicate 12 0) "abc" (by simp) (by simp)

/-- C8: two `symEncrypt` calls with the same key and the same plaintext whose
freshly drawn 12-byte IVs differ produce different blobs, and the first
12 decoded bytes of the two blobs are the two distinct IVs. -/
theorem symEncrypt_distinct_iv_distinct_blob (P : SubtleCrypto)
    (hP : SubtleCryptoOK P) (rnd iv1 iv2 : List Nat) (s : String)
    (hiv1len : iv1.length = 12) (hiv1 : ∀ b ∈ iv1, b < 256)
    (hiv2len : iv2.length = 12) (hiv2 : ∀ b ∈ iv2, b < 256)
    (hne : iv1 ≠ iv2) :
    ∀ blob1 blob2, symEncrypt P (createRandomSymmetricKey rnd) s iv1 = .ok blob1 →
      symEncrypt P (createRandomSymmetricKey rnd) s iv2 = .ok blob2 →
      blob1 ≠ blob2 ∧ (decodeB64 blob1).take 12 = iv1
        ∧ (decodeB64 blob2).take 12 = iv2 := by
  intro blob1 blob2 h1 h2
  rw [symEncrypt_eq] at h1 h2
  simp only [Except.ok.injEq] at h1 h2
  subst h1
  subst h2
  have d1 : (decodeB64 (arrayBufferToBase64 (iv1 ++ P.aesEnc rnd iv1 (P.utf8Enc s)))).take 12
      = iv1 := by
    unfold arrayBufferToBase64
    rw [decodeB64_encodeB64 _ (blob_bytes_lt P hP rnd iv1 s hiv1)]
    exact List.take_left' hiv1len
  have d2 : (decodeB64 (arrayBufferToBase64 (iv2 ++ P.aesEnc rnd iv2 (P.utf8Enc s)))).take 12
      = iv2 := by
    unfold arrayBufferToBase64
    rw [decodeB64_encodeB64 _ (blob_bytes_lt P hP rnd iv2 s hiv2)]
    exact List.take_left' hiv2len
  refine ⟨?_, d1, d2⟩
  intro hblob
  apply hne
  rw [← d1, ← d2, hblob]

/-- C8 witness: a zero IV and an IV starting with byte 1 give different blobs
under the toy primitives. -/
theorem symEncrypt_distinct_iv_distinct_blob_witness :
    arrayBufferToBase64 (List.replicate 12 0 ++
        toySubtle.aesEnc (List.replicate 32 0) (List.replicate 12 0)
          (toySubtle.utf8Enc "abc"))
      ≠ arrayBufferToBase64 ((1 :: List.replicate 11 0) ++
          toySubtle.aesEnc (List.replicate 32 0) (1 :: List.replicate 11 0)
            (toySubtle.utf8Enc "abc")) :=
  (symEncrypt_distinct_iv_distinct_blob toySubtle toySubtleOK
    (List.replicate 32 0) (List.replicate 12 0) (1 :: List.replicate 11 0) "abc"
    (by simp) (by simp) (by simp)
    (by intro b hb; simp only [List.mem_cons, List.mem_replicate] at hb; omega)
    (by decide) _ _ (symEncrypt_eq _ _ _ _) (symEncrypt_eq _ _ _ _)).1

/-- C3 counterexample: with a valid 32-byte key and the empty blob (0 decoded
bytes, hence shorter than 12), `symDecrypt` is claimed to fail by rejecting
the blob before slicing, never attempting a decrypt; in fact the recorded
trace shows a `subtle.decrypt` call with the sliced (empty) IV and empty
ciphertext, so the claimed no-decrypt-attempt behaviour is false. -/
theorem symDecrypt_short_blob_counterexample :
    ¬ (symDecrypt toySubtle (arrayBufferToBase64 (List.replicate 32 0)) ""
          = .error .operationError
        ∧ (symDecryptRun toySubtle (arrayBufferToBase64 (List.replicate 32 0)) "").2
          = []) := by
  intro h
  exact absurd h.2 (by decide)

/-- C3 (amended): for every key string that imports successfully and every
blob with fewer than 12 decoded bytes, `symDecrypt` fails with the
`operationError` of the underlying AES-GCM decrypt; the blob is not rejected
before slicing — exactly one decrypt is attempted, with the whole short
decoded blob as the IV and an empty ciphertext, and that attempt is what
fails (the ciphertext is shorter than the 16-byte tag). -/
theorem symDecrypt_short_blob_fails (P : SubtleCrypto) (hP : SubtleCryptoOK P)
    (strKey blob : String) (key : CryptoKey)
    (hkey : importSymKey strKey = .ok key)
    (hshort : (decodeB64 blob).length < 12) :
    symDecryptRun P strKey blob
      = (.error .operationError, [(decodeB64 blob, [])]) := by
  have hmat : key = ⟨.aes (decodeB64 strKey), [.encrypt, .decrypt]⟩ := by
    simp only [importSymKey, base64ToArrayBuffer] at hkey
    split at hkey
    · simp only [Except.ok.injEq] at hkey
      exact hkey.symm
    · exact absurd hkey (by simp)
  subst hmat
  simp only [symDecryptRun, hkey, base64ToArrayBuffer]
  rw [List.take_of_length_le (by omega), List.drop_eq_nil_of_le (by omega)]
  simp [subtleDecryptAesGcm, hP.aes_short _ _ [] (by simp)]

/-- C3 witness: the amended behaviour evaluated at the toy primitives, the
zero 32-byte key and the empty blob. -/
theorem symDecrypt_short_blob_fails_witness :
    symDecryptRun toySubtle (arrayBufferToBase64 (List.replicate 32 0)) ""
      = (.error .operationError, [([], [])]) :=
  symDecrypt_short_blob_fails toySubtle toySubtleOK
    (arrayBufferToBase64 (List.replicate 32 0)) "" _
    (importSymKey_export (List.replicate 32 0) (by simp) (by simp))
    (by decide)

instance {ε α : Type} [DecidableEq ε] [DecidableEq α] : DecidableEq (Except ε α) :=
  fun x y =>
    match x, y with
    | .ok a, .ok b =>
      if h : a = b then .isTrue (by rw [h])
      else .isFalse (by intro hc; injection hc; contradiction)
    | .error a, .error b =>
      if h : a = b then .isTrue (by rw [h])
      else .isFalse (by intro hc; injection hc; contradiction)
    | .ok _, .error _ => .isFalse (fun hc => Except.noConfusion hc)
    | .error _, .ok _ => .isFalse (fun hc => Except.noConfusion hc)

/-- C4 counterexample: the string `"!AAAAAAAAAAAAAAAAAAAAAA=="` is not valid
base64 (it contains `!`), and its lenient decoding has 16 bytes, not 32 —
yet `importSymKey` succeeds on it (WebCrypto accepts a 16-byte AES key and
the Node base64 decoder never rejects), refuting both halves of the claim. -/
theorem importSymKey_counterexample :
    (∃ k, importSymKey "!AAAAAAAAAAAAAAAAAAAAAA==" = .ok k)
      ∧ (decodeB64 "!AAAAAAAAAAAAAAAAAAAAAA==").length = 16 := by
  refine ⟨⟨⟨.aes (decodeB64 "!AAAAAAAAAAAAAAAAAAAAAA=="),
    [.encrypt, .decrypt]⟩, ?_⟩, by decide⟩
  simp only [importSymKey, base64ToArrayBuffer]
  rw [if_pos (by decide)]

/-- C4 (amended): `importSymKey` succeeds exactly when the lenient base64
decoding of its input has 16, 24 or 32 bytes (WebCrypto accepts AES-128,
AES-192 and AES-256 raw key data), and otherwise fails with the underlying
`DataError`; malformed base64 by itself never causes a failure, because the
Node decoder skips invalid characters. -/
theorem importSymKey_length_characterization (s : String) :
    ((∃ k, importSymKey s = .ok k)
        ↔ ((decodeB64 s).length = 16 ∨ (decodeB64 s).length = 24
            ∨ (decodeB64 s).length = 32))
      ∧ (importSymKey s = .error .dataError
          ↔ ¬ ((decodeB64 s).length = 16 ∨ (decodeB64 s).length = 24
              ∨ (decodeB64 s).length = 32)) := by
  simp only [importSymKey, base64ToArrayBuffer]
  split
  · rename_i h
    constructor
    · simp [h]
    · simp [h]
  · rename_i h
    constructor
    · simp [h]
    · simp [h]

/-- C5: encrypting the base64 message `"aGVsbG8="` (the bytes of `"hello"`)
under the exported-then-reimported public key of a generated RSA key pair and
decrypting with the matching private key yields the UTF-8 string `"hello"`.
`hdec` is the (true) fact that the UTF-8 decoder renders those five bytes as
`"hello"`; `seed` models the internal OAEP randomness. -/
theorem rsa_roundtrip_hello (P : SubtleCrypto) (hP : SubtleCryptoOK P)
    (kp seed : Nat) (hdec : P.utf8Dec [104, 101, 108, 108, 111] = "hello") :
    ∀ pubStr ct, exportPubKey P (generateRsaKeyPair kp).1 = .ok pubStr →
      rsaEncrypt P "aGVsbG8=" pubStr seed = .ok ct →
      rsaDecrypt P ct (generateRsaKeyPair kp).2 = .ok "hello" := by
  intro pubStr ct hexp henc
  simp only [exportPubKey, generateRsaKeyPair, Except.ok.injEq] at hexp
  have himp : importPubKey P pubStr = .ok ⟨.rsaPub kp, [.encrypt]⟩ := by
    subst hexp
    simp only [importPubKey, base64ToArrayBuffer, arrayBufferToBase64]
    rw [decodeB64_encodeB64 _ (hP.spki_lt kp), hP.spki_rt kp]
  have hmsg : decodeB64 "aGVsbG8=" = [104, 101, 108, 108, 111] := by decide
  simp only [rsaEncrypt, himp, base64ToArrayBuffer, hmsg, subtleEncryptRsaOaep,
    List.mem_cons, List.mem_singleton, if_pos] at henc
  rw [if_pos (by simp)] at henc
  simp only [Except.ok.injEq] at henc
  subst henc
  simp only [rsaDecrypt, generateRsaKeyPair, base64ToArrayBuffer, arrayBufferToBase64]
  rw [decodeB64_encodeB64 _ (hP.rsa_lt kp seed _ (by rw [← hmsg]; exact decodeB64_lt _))]
  simp only [subtleDecryptRsaOaep]
  rw [if_pos (by simp), hP.rsa_rt kp seed _]
  show Except.ok (P.utf8Dec [104, 101, 108, 108, 111]) = Except.ok "hello"
  rw [hdec]

/-- C5 witness: the toy primitives realize the scenario; with the identity
toy RSA, the ciphertext re-encodes to the original `"aGVsbG8="`. -/
theorem rsa_roundtrip_hello_witness :
    rsaDecrypt toySubtle (arrayBufferToBase64 (toySubtle.rsaEnc 0 0
        (decodeB64 "aGVsbG8="))) (generateRsaKeyPair 0).2 = .ok "hello" := by
  refine rsa_roundtrip_hello toySubtle toySubtleOK 0 0 (by decide)
    (arrayBufferToBase64 (toySubtle.spkiEnc 0)) _ rfl ?_
  simp only [rsaEncrypt, importPubKey, base64ToArrayBuffer, arrayBufferToBase64]
  rw [decodeB64_encodeB64 _ (toySubtleOK.spki_lt 0), toySubtleOK.spki_rt 0]
  simp [subtleEncryptRsaOaep]

/-- C6: a key returned by `importPubKey` carries only the `encrypt` usage and
a key returned by `importPrvKey` carries only the `decrypt` usage, so an
imported public key can never decrypt and an imported private key can never
encrypt: the corresponding subtle operations reject with `invalidAccess`. -/
theorem imported_key_usage_restriction :
    (∀ (P : SubtleCrypto) (s : String) (k : CryptoKey),
        importPubKey P s = .ok k →
        ∀ data, subtleDecryptRsaOaep P k data = .error .invalidAccess)
      ∧ (∀ (P : SubtleCrypto) (s : String) (k : CryptoKey),
          importPrvKey P s = .ok k →
          ∀ seed data, subtleEncryptRsaOaep P k seed data = .error .invalidAccess) := by
  constructor
  · intro P s k hk data
    rcases hsp : P.spkiDec (base64ToArrayBuffer s) with _ | kp
    · simp [importPubKey, hsp] at hk
    · simp only [importPubKey, hsp, Except.ok.injEq] at hk
      rw [← hk]
      simp [subtleDecryptRsaOaep]
  · intro P s k hk seed data
    rcases hsp : P.pkcs8Dec (base64ToArrayBuffer s) with _ | kp
    · simp [importPrvKey, hsp] at hk
    · simp only [importPrvKey, hsp, Except.ok.injEq] at hk
      rw [← hk]
      simp [subtleEncryptRsaOaep]

/-- C6 witness: with the toy primitives the empty string imports as the
public (respectively private) half of key pair 0, and the opposite operation
is rejected. -/
theorem imported_key_usage_restriction_witness :
    subtleDecryptRsaOaep toySubtle ⟨.rsaPub 0, [.encrypt]⟩ [] = .error .invalidAccess
      ∧ subtleEncryptRsaOaep toySubtle ⟨.rsaPrv 0, [.decrypt]⟩ 0 []
          = .error .invalidAccess :=
  ⟨imported_key_usage_restriction.1 toySubtle "" _ rfl [],
   imported_key_usage_restriction.2 toySubtle "" _ rfl 0 []⟩

/-- C9: `exportPrvKey` applied to a null key returns null instead of raising
an error, and applied to the private half of a generated key pair returns the
base64 encoding of its PKCS8 serialization. -/
theorem exportPrvKey_null_passthrough (P : SubtleCrypto) :
    exportPrvKey P none = .ok none
      ∧ ∀ kp, exportPrvKey P (some (generateRsaKeyPair kp).2)
          = .ok (some (arrayBufferToBase64 (P.pkcs8Enc kp))) :=
  ⟨rfl, fun _ => rfl⟩

/-! ## Helper lemmas about the registry -/

theorem runRegisterCalls_cons (r : Int × String) (rs : List (Int × String))
    (st : RegistryState) :
    runRegisterCalls (r :: rs) st = runRegisterCalls rs ((registerNode st r.1 r.2).2) :=
  rfl

theorem registerNode_nodeKeys (st : RegistryState) (id : Int) (pk : String) :
    ((registerNode st id pk).2).nodeKeys = st.nodeKeys := by
  unfold registerNode
  split <;> rfl

theorem runRegistry_nodeKeys (reqs : List RegistryRequest) (st : RegistryState) :
    (runRegistry reqs st).nodeKeys = st.nodeKeys := by
  induction reqs generalizing st with
  | nil => rfl
  | cons r rs ih =>
    show (runRegistry rs (registryStep st r)).nodeKeys = st.nodeKeys
    rw [ih]
    cases r with
    | register id pk => exact registerNode_nodeKeys st id pk
    | status => rfl
    | privateKeyLookup id => rfl
    | listNodes => rfl

theorem runRegistry_preserves_find (reqs : List RegistryRequest)
    (st : RegistryState) (id : Int) (x : RegistryNode)
    (h : st.nodes.find? (fun n => n.nodeId == id) = some x) :
    (runRegistry reqs st).nodes.find? (fun n => n.nodeId == id) = some x := by
  induction reqs generalizing st with
  | nil => exact h
  | cons r rs ih =>
    show (runRegistry rs (registryStep st r)).nodes.find? (fun n => n.nodeId == id)
      = some x
    apply ih
    cases r with
    | register rid rpk =>
      show ((registerNode st rid rpk).2).nodes.find? (fun n => n.nodeId == id) = some x
      unfold registerNode
      split
      · exact h
      · simp only [List.find?_append, h, Option.or_some]
    | status => exact h
    | privateKeyLookup rid => exact h
    | listNodes => exact h

theorem runRegisterCalls_find_first (reqs : List (Int × String))
    (st : RegistryState) (id : Int) (pk : String)
    (hnone : st.nodes.find? (fun n => n.nodeId == id) = none)
    (hfirst : firstRegistration reqs id = some pk) :
    (runRegisterCalls reqs st).nodes.find? (fun n => n.nodeId == id)
      = some ⟨id, pk⟩ := by
  induction reqs generalizing st with
  | nil => simp [firstRegistration] at hfirst
  | cons r rs ih =>
    rw [runRegisterCalls_cons]
    by_cases hid : r.1 = id
    · have hpk : r.2 = pk := by
        unfold firstRegistration at hfirst
        rw [List.find?_cons_of_pos _ (by simp [hid])] at hfirst
        simpa using hfirst
      have hfresh : (st.nodes.find? (fun n => n.nodeId == r.1)).isSome = false := by
        rw [hid, hnone]
        rfl
      unfold registerNode
      rw [if_neg (by simp [hfresh])]
      apply runRegistry_preserves_find
      simp only [List.find?_append, hnone, Option.none_or]
      rw [List.find?_cons_of_pos _ (by simp [hid]), hid, hpk]
    · have hrest : firstRegistration rs id = some pk := by
        unfold firstRegistration at hfirst ⊢
        rwa [List.find?_cons_of_neg _ (by simp [hid])] at hfirst
      apply ih _ _ hrest
      unfold registerNode
      split
      · exact hnone
      · simp only [List.find?_append, hnone, Option.none_or]
        rw [List.find?_cons_of_neg _ (by simp [hid])]
        rfl

/-- C7: the first registration of a node id succeeds and appends the node;
every later registration with the same id, regardless of the offered pubKey,
is rejected with the conflict response and leaves the registry state
unchanged; consequently, after any sequence of registration calls starting
from the empty registry, the listing still resolves each id to the pubKey of
its first registration. -/
theorem registry_first_registration_wins :
    (∀ st id pk, st.nodes.find? (fun n => n.nodeId == id) = none →
        registerNode st id pk = (.registered, ⟨st.nodes ++ [⟨id, pk⟩], st.nodeKeys⟩))
      ∧ (∀ st id pk, (st.nodes.find? (fun n => n.nodeId == id)).isSome →
          registerNode st id pk = (.conflict, st))
      ∧ (∀ reqs id pk, firstRegistration reqs id = some pk →
          (getNodeRegistry (runRegisterCalls reqs initRegistryState)).find?
              (fun n => n.nodeId == id) = some ⟨id, pk⟩) := by
  refine ⟨?_, ?_, ?_⟩
  · intro st id pk h
    unfold registerNode
    rw [if_neg (by simp [h])]
  · intro st id pk h
    unfold registerNode
    rw [if_pos h]
  · intro reqs id pk hfirst
    exact runRegisterCalls_find_first reqs initRegistryState id pk rfl hfirst

/-- C7 witness: registering id 5 with pubKey `"pkA"` and then again with
pubKey `"pkB"` leaves `"pkA"` in the listing for id 5. -/
theorem registry_first_registration_wins_witness :
    (getNodeRegistry (runRegisterCalls [(5, "pkA"), (5, "pkB")] initRegistryState)).find?
        (fun n => n.nodeId == 5) = some ⟨5, "pkA"⟩ :=
  registry_first_registration_wins.2.2 [(5, "pkA"), (5, "pkB")] 5 "pkA" rfl

/-- C10: the registry private-key store `nodeKeys` starts empty and no
request handler ever writes it, so in every state reachable by any request
sequence it is still empty and the debug `/getPrivateKey` endpoint answers
not-found for every node id; its success branch is unreachable. -/
theorem getPrivateKey_always_notFound (P : SubtleCrypto)
    (reqs : List RegistryRequest) (id : Int) :
    getPrivateKey P (runRegistry reqs initRegistryState) id = .notFound := by
  unfold getPrivateKey
  rw [runRegistry_nodeKeys]
  rfl
